import Mathlib

/-!
Verification of the SNMP switch-manager acquisition core
(`custom_components/snmp_switch_manager`): a shallow embedding of the
transport primitives (`_do_get_one`, `_do_get_many`, `_do_next_walk`),
the Q-BRIDGE PortList bitmap decoder, the VLAN membership collection,
the port classifier, the bandwidth rate engine and the mutation
operations, together with theorems settling the specification claims.

Conventions of the embedding:
* SNMP transport is abstracted by response data passed in explicitly
  (a `GetDevice` valuation for GET requests, a response stream for
  GET-NEXT walks, a success flag for SET requests).
* Python `float` time/rate arithmetic is modelled over `ℚ`; counter
  values are `ℤ` (Python integers are unbounded).
* Recursive helpers that Python runs on shrinking inputs are written
  fuel-indexed so that they are structurally recursive and kernel
  computable; the fuel needed is derived in the theorems.
-/

/-- Boolean substring test on character lists, mirroring Python `tok in s`. -/
def isInfixB (tok : List Char) : List Char → Bool
  | [] => tok.isEmpty
  | c :: t => tok.isPrefixOf (c :: t) || isInfixB tok t

/-- Python `tok in s` on strings. -/
def strContains (s : String) (tok : String) : Bool :=
  isInfixB tok.data s.data

/-- Python `s.lower()` on the character level (the relevant values are
ASCII). -/
def lowerChars (s : String) : List Char :=
  s.data.map Char.toLower

/-- The sentinel test of `_do_get_many`'s response loop: the lower-cased
value text contains "no such", "nosuch" or "endofmib". -/
def isSentinelValue (s : String) : Bool :=
  let low := lowerChars s
  isInfixB "no such".data low || isInfixB "nosuch".data low || isInfixB "endofmib".data low

/-- Value normalization in `_do_get_many`'s response loop: an empty
string or a sentinel string is stored as absent (`None`), anything else
is stored as is. -/
def normalizeValue (s : String) : Option String :=
  if s = "" then none
  else if isSentinelValue s then none
  else some s

/-- `_do_get_one`: on an error indication or error status it returns
`None`; otherwise it returns the first var-bind's value text unchanged
(no sentinel normalization), or `None` when no var-bind came back. -/
def do_get_one (err : Bool) (vbs : List (String × String)) : Option String :=
  if err then none
  else vbs.head?.map Prod.snd

/-- Abstract GET responder: `bad o` says a GET PDU containing `o` is
answered with a protocol error, `val o` is the value text `o` resolves
to on a successful GET. -/
structure GetDevice where
  bad : String → Bool
  val : String → String

/-- A chunk GET errors exactly when some requested OID is bad. -/
def chunkErrs (dev : GetDevice) (chunk : List String) : Bool :=
  chunk.any dev.bad

/-- The result mapping of `_do_get_many`: `some v` means the key is
present and bound to `v` (`some none` = present, bound to `None`);
`none` means the key is absent from the dict. -/
def setKey (out : String → Option (Option String)) (k : String) (v : Option String) :
    String → Option (Option String) :=
  fun x => if x = k then some v else out x

/-- The success branch of `_fetch_chunk`: a successful GET echoes each
requested OID with its value, and each is stored normalized. -/
def storeChunk (dev : GetDevice) (chunk : List String)
    (out : String → Option (Option String)) : String → Option (Option String) :=
  chunk.foldl (fun acc oid => setKey acc oid (normalizeValue (dev.val oid))) out

/-- `_fetch_chunk` of `_do_get_many`, fuel-indexed (any fuel at least
the chunk length makes every recursive call well-fed): on a protocol
error a singleton chunk is dropped silently, a larger chunk is split at
`mid = max 1 (len / 2)` and both halves are retried. -/
def fetchChunkF (dev : GetDevice) :
    Nat → List String → (String → Option (Option String)) → (String → Option (Option String))
  | _, [], out => out
  | 0, _ :: _, out => out
  | fuel + 1, c :: cs, out =>
    if chunkErrs dev (c :: cs) then
      if (c :: cs).length = 1 then out
      else
        let mid := max 1 ((c :: cs).length / 2)
        fetchChunkF dev fuel ((c :: cs).drop mid) (fetchChunkF dev fuel ((c :: cs).take mid) out)
    else
      storeChunk dev (c :: cs) out

/-- `_fetch_chunk` with exactly enough fuel. -/
def fetchChunk (dev : GetDevice) (chunk : List String)
    (out : String → Option (Option String)) : String → Option (Option String) :=
  fetchChunkF dev chunk.length chunk out

/-- `_do_get_many`: the result dict starts with every requested OID
bound to `None`; the OID list is processed in fixed chunks of 20
(`range(0, len(oids), 20)`), each handed to `_fetch_chunk`. -/
def initOut (oids : List String) : String → Option (Option String) :=
  fun o => if o ∈ oids then some none else none

/-- The slices `oids[i : i + 20]` for `i in range(0, len(oids), 20)`. -/
def chunksOf20 (l : List String) : List (List String) :=
  (List.range ((l.length + 19) / 20)).map fun k => (l.drop (k * 20)).take 20

def do_get_many (dev : GetDevice) (oids : List String) : String → Option (Option String) :=
  (chunksOf20 oids).foldl (fun out c => fetchChunk dev c out) (initOut oids)

/-- The per-response-list body of `_do_next_walk`'s while loop: process
var-binds in order; a var-bind whose OID leaves the `base` subtree or
repeats an already-seen OID ends the whole walk (`return`), any other
var-bind is recorded as seen and yielded. Returns the updated seen set,
the yielded pairs, and whether the walk was ended. -/
def processVbs {α : Type} (base : String) :
    List (String × α) → List String → List (String × α) →
    List String × List (String × α) × Bool
  | [], seen, acc => (seen, acc, false)
  | (o, v) :: rest, seen, acc =>
    if !(o == base || (base ++ ".").data.isPrefixOf o.data) then (seen, acc, true)
    else if o ∈ seen then (seen, acc, true)
    else processVbs base rest (o :: seen) (acc ++ [(o, v)])

/-- `_do_next_walk`'s loop, fuel-indexed. `resp n` is the var-bind list
the device returns to the n-th GET-NEXT request; `[]` covers both an
error indication/status and an empty response, each of which breaks the
loop. `none` means the fuel ran out before the loop finished. -/
def walkAux {α : Type} (resp : Nat → List (String × α)) (base : String) :
    Nat → Nat → List String → List (String × α) → Option (List (String × α))
  | 0, _, _, _ => none
  | fuel + 1, n, seen, acc =>
    let vbs := resp n
    if vbs.isEmpty then some acc
    else
      let p := processVbs base vbs seen acc
      if p.2.2 then some p.2.1
      else walkAux resp base fuel (n + 1) p.1 p.2.1

/-- `_do_next_walk` run from the start state. -/
def do_next_walk {α : Type} (resp : Nat → List (String × α)) (base : String)
    (fuel : Nat) : Option (List (String × α)) :=
  walkAux resp base fuel 0 [] []

/-- `_decode_bridge_port_bitmap`: decode a Q-BRIDGE PortList octet
string (modelled as the list of its byte values) into the set of
1-based bridge port numbers; within each octet the most significant bit
(`0x80 >> bit`) comes first, octet `i` bit `bit` meaning port
`i * 8 + bit + 1`. -/
def decode_bridge_port_bitmap (data : List ℕ) : Finset ℕ :=
  ((List.range data.length).flatMap fun i =>
    (List.range 8).filterMap fun bit =>
      if data.getD i 0 &&& (128 >>> bit) ≠ 0 then some (i * 8 + bit + 1) else none).toFinset

/-- The value of one encoded octet, given the membership of its eight
ports (bit 0 is the most significant bit). -/
def octetVal (b : ℕ → Bool) : ℕ :=
  (cond (b 0) 128 0) + (cond (b 1) 64 0) + (cond (b 2) 32 0) + (cond (b 3) 16 0) +
    (cond (b 4) 8 0) + (cond (b 5) 4 0) + (cond (b 6) 2 0) + (cond (b 7) 1 0)

/-- Modelled from the spec: the MSB-first bit-packed PortList encoding
that claim C9 takes the source decoder to invert — bit `n` (1-based,
most-significant-bit first within each octet) represents bridge port
`n`; the encoder itself does not appear in the source. -/
def encodePortList (S : Finset ℕ) : List ℕ :=
  (List.range ((S.sup id + 7) / 8)).map fun i =>
    octetVal fun bit => decide (i * 8 + bit + 1 ∈ S)

/-- `_collect_vlan_portlists`: invert a Q-BRIDGE PortList table (rows of
VLAN id and bitmap bytes, VLAN id taken from the OID suffix) into a
bridge-port → VLAN-set map, added onto `out`; rows with VLAN id 0 or an
empty decoded port set are skipped. -/
def collect_vlan_portlists (rows : List (ℕ × List ℕ)) (out : ℕ → Finset ℕ) :
    ℕ → Finset ℕ :=
  rows.foldl
    (fun acc r =>
      if r.1 = 0 then acc
      else
        let ports := decode_bridge_port_bitmap r.2
        if ports = ∅ then acc
        else fun bp => if bp ∈ ports then insert r.1 (acc bp) else acc bp)
    out

/-- The four Q-BRIDGE VLAN membership tables a device may expose. -/
structure VlanTables where
  currentEgress : List (ℕ × List ℕ)
  currentUntagged : List (ℕ × List ℕ)
  staticEgress : List (ℕ × List ℕ)
  staticUntagged : List (ℕ × List ℕ)

/-- The allowed/untagged VLAN maps as `_async_walk_interfaces` actually
computes them: each of the two "current"-table calls passes the table
OID as an unexpected keyword argument (and omits the output dict), so
it raises `TypeError` at call time; the surrounding `except Exception`
swallows that, and only the static tables ever contribute. -/
def vlanMembership_code (dev : VlanTables) : (ℕ → Finset ℕ) × (ℕ → Finset ℕ) :=
  (collect_vlan_portlists dev.staticEgress fun _ => ∅,
   collect_vlan_portlists dev.staticUntagged fun _ => ∅)

/-- Modelled from the spec (claim C4): decode from both the "current"
and the "static" tables, merging the static results into the sets
already collected from the current tables. -/
def vlanMembership_claim (dev : VlanTables) : (ℕ → Finset ℕ) × (ℕ → Finset ℕ) :=
  (collect_vlan_portlists dev.staticEgress
      (collect_vlan_portlists dev.currentEgress fun _ => ∅),
   collect_vlan_portlists dev.staticUntagged
      (collect_vlan_portlists dev.currentUntagged fun _ => ∅))

/-- `VIRTUAL_IFTYPES` from helpers.py: loopback(24), propVirtual(53),
l2vlan(135), lag(161), tunnel(131). -/
def VIRTUAL_IFTYPES : Finset ℤ := {24, 53, 135, 161, 131}

/-- Python `str.strip()` on the character level. -/
def pyStrip (l : List Char) : List Char :=
  ((l.dropWhile Char.isWhitespace).reverse.dropWhile Char.isWhitespace).reverse

/-- The virtual-indicating name tokens of `classify_port_type`. -/
def virtualNameTokens : List (List Char) :=
  ["vlan".data, "loopback".data, "mgmt".data, "management".data, "irb".data,
   "bdi".data, "svi".data, "bridge".data, "port-channel".data, "bond".data, "lag".data]

/-- The Ethernet-ish name tokens of `classify_port_type`'s fallback. -/
def ethNameTokens : List (List Char) :=
  ["gigabit".data, "gige".data, "gi".data, "fastethernet".data, "fa".data,
   "ethernet".data, "eth".data, "tengig".data, "ten".data, "te".data, "ge".data, "xe".data]

/-- `isinstance(if_type, int) and if_type in VIRTUAL_IFTYPES`. -/
def iftypeVirtual (if_type : Option ℤ) : Bool :=
  match if_type with
  | some t => decide (t ∈ VIRTUAL_IFTYPES)
  | none => false

/-- The name test of `classify_port_type`'s virtual branch: some
virtual-indicating token occurs in the name, or it starts with `br` or
`lo`. -/
def nameVirtual (nm : List Char) : Bool :=
  virtualNameTokens.any (fun tok => isInfixB tok nm)
    || "br".data.isPrefixOf nm || "lo".data.isPrefixOf nm

/-- The name test of `classify_port_type`'s Ethernet fallback. -/
def nameEthernetish (nm : List Char) : Bool :=
  "port".data.isPrefixOf nm || ethNameTokens.any fun tok => isInfixB tok nm

/-- `classify_port_type` from helpers.py, translated clause by clause:
strip+lower the name; a virtual ifType wins, else a virtual-indicating
name; then bridge membership on a still-unknown result, then the
ethernetCsmacd(6) fallback on a still-unknown result. -/
def classify_port_type (if_type : Option ℤ) (name : String) (is_bridge_port : Bool) :
    String :=
  let nm : List Char := (pyStrip name.data).map Char.toLower
  let pt1 : String :=
    if iftypeVirtual if_type then "virtual"
    else if nameVirtual nm then "virtual"
    else "unknown"
  let pt2 : String := if pt1 == "unknown" && is_bridge_port then "physical" else pt1
  if pt2 == "unknown" && ((if_type == some 6) && nameEthernetish nm) then "physical"
  else pt2

/-- Modelled from the spec (claim C7 as amended — the source has no
"portchannel" token): the claim's decision list, evaluated top to
bottom, first match wins. -/
def classify_port_type_claim (if_type : Option ℤ) (name : String)
    (is_bridge_port : Bool) : String :=
  let nm : List Char := (pyStrip name.data).map Char.toLower
  if iftypeVirtual if_type then "virtual"
  else if nameVirtual nm then "virtual"
  else if is_bridge_port then "physical"
  else if (if_type == some 6) && nameEthernetish nm then "physical"
  else "unknown"

/-- One retained bandwidth sample: timestamp plus last-seen RX/TX octet
counters (each may be absent when its fetch failed). -/
structure BwSample where
  ts : ℚ
  rx : Option ℤ
  tx : Option ℤ
deriving DecidableEq

/-- The delta computation of `async_poll`'s bandwidth section:
`delta = cur - prev`, and only with 32-bit counters a negative delta is
corrected by adding `2^32`. -/
def bwWrapDelta (use_hc : Bool) (prev cur : ℤ) : ℤ :=
  let delta := cur - prev
  if use_hc = false ∧ delta < 0 then delta + 2 ^ 32 else delta

/-- `rate_bps = delta * 8.0 / dt`, over `ℚ`. -/
def bwRate (use_hc : Bool) (prev cur : ℤ) (dt : ℚ) : ℚ :=
  (bwWrapDelta use_hc prev cur : ℚ) * 8 / dt

/-- One interface's bandwidth tick from `async_poll`: when both fetched
counters are absent the interface is skipped entirely (`continue`);
otherwise `dt` is `now - last.ts` when a previous sample with a nonzero
timestamp exists and `0` otherwise, a rate is computed per direction
only when `dt > 0` and both the previous and current counter exist, and
the new `(ts, rx, tx)` sample replaces the retained one. -/
def bwTick (use_hc : Bool) (now_ts : ℚ) (last : Option BwSample)
    (rx_oct tx_oct : Option ℤ) : Option (BwSample × Option ℚ × Option ℚ) :=
  if rx_oct = none ∧ tx_oct = none then none
  else
    let last_ts : ℚ := match last with | none => 0 | some s => s.ts
    let dt : ℚ := if last_ts ≠ 0 then now_ts - last_ts else 0
    let rx_bps : Option ℚ :=
      if 0 < dt then
        match rx_oct, last.bind BwSample.rx with
        | some cur, some prev => some (bwRate use_hc prev cur dt)
        | _, _ => none
      else none
    let tx_bps : Option ℚ :=
      if 0 < dt then
        match tx_oct, last.bind BwSample.tx with
        | some cur, some prev => some (bwRate use_hc prev cur dt)
        | _, _ => none
      else none
    some (⟨now_ts, rx_oct, tx_oct⟩, rx_bps, tx_bps)

/-- The cached interface-table row fields touched by the mutation
operations. -/
structure IfRow where
  aliasText : Option String := none
  admin : Option ℤ := none
deriving DecidableEq

/-- `SwitchSnmpClient.set_alias`: `ok` is the SNMP SET outcome; on
success the cached row's alias is updated
(`setdefault(if_index, {})["alias"] = alias`), on failure the cache is
untouched and `False` is returned. -/
def set_alias (ok : Bool) (ifTable : ℕ → Option IfRow) (if_index : ℕ)
    (text : String) : Bool × (ℕ → Option IfRow) :=
  if ok then
    (true, fun i =>
      if i = if_index then some { (ifTable if_index).getD {} with aliasText := some text }
      else ifTable i)
  else (false, ifTable)

/-- `SwitchSnmpClient.set_admin_status`: it returns the SNMP SET outcome
and never touches the cache (the optimistic cache update for admin
status lives in its callers). -/
def set_admin_status (ok : Bool) (ifTable : ℕ → Option IfRow) (if_index : ℕ)
    (value : ℤ) : Bool × (ℕ → Option IfRow) :=
  (ok, ifTable)

/-- The two if-chain shapes of the classifier agree for any values of
the four decision conditions. -/
lemma classify_chain_eq (b1 b2 b3 b4 : Bool) :
    (let pt1 : String := if b1 then "virtual" else if b2 then "virtual" else "unknown"
     let pt2 : String := if pt1 == "unknown" && b3 then "physical" else pt1
     if pt2 == "unknown" && b4 then "physical" else pt2) =
    (if b1 then "virtual" else if b2 then "virtual" else if b3 then "physical"
     else if b4 then "physical" else "unknown") := by
  revert b1 b2 b3 b4
  decide

/-- C7 (as amended): port classification is a pure, deterministic
function of `(interface_type, name, is_bridge_port)`, evaluated in the
claimed first-match-wins order: a virtual interface type yields
"virtual"; otherwise a virtual-indicating name token (vlan, loopback,
mgmt/management, irb, bdi, svi, bridge, port-channel, lag, bond, or a
`br`/`lo` prefix — but not "portchannel" without the hyphen) yields
"virtual"; otherwise a known bridge port yields "physical"; otherwise
Ethernet-CSMA/CD type with an Ethernet-ish name yields "physical"; all
remaining cases yield "unknown". -/
theorem classify_port_type_matches_amended_spec (if_type : Option ℤ) (name : String)
    (is_bridge_port : Bool) :
    classify_port_type if_type name is_bridge_port
      = classify_port_type_claim if_type name is_bridge_port :=
  classify_chain_eq (iftypeVirtual if_type)
    (nameVirtual ((pyStrip name.data).map Char.toLower)) is_bridge_port
    ((if_type == some 6) && nameEthernetish ((pyStrip name.data).map Char.toLower))

/-- C7 counterexample: the name "portchannel1" contains the claimed
virtual-indicating token "portchannel", yet the source classifier
returns "unknown", not "virtual" (with no interface type and no bridge
membership, no other rule applies). -/
theorem classify_portchannel_token_not_virtual :
    isInfixB "portchannel".data ((pyStrip ("portchannel1").data).map Char.toLower) = true
    ∧ classify_port_type none "portchannel1" false = "unknown"
    ∧ "unknown" ≠ "virtual" := by
  decide

/-- C8 (as amended): `set_alias` updates the cached row optimistically
on success — the row at the index gets the new alias and keeps its
other fields, all other rows are untouched — and on failure returns
`False` with the cache untouched; `set_admin_status` returns the SNMP
SET outcome and never touches the cache (its callers do the optimistic
admin update). -/
theorem mutation_cache_semantics (ifTable : ℕ → Option IfRow) (i j : ℕ)
    (text : String) (value : ℤ) (ok : Bool) :
    (set_alias true ifTable i text).1 = true
    ∧ (set_alias true ifTable i text).2 j
        = (if j = i then some { (ifTable i).getD {} with aliasText := some text }
           else ifTable j)
    ∧ set_alias false ifTable i text = (false, ifTable)
    ∧ set_admin_status ok ifTable i value = (ok, ifTable) := by
  refine ⟨rfl, ?_, rfl, rfl⟩
  by_cases h : j = i <;> simp [set_alias, h]

/-- C8 counterexample: with a cached row whose admin status is 2, a
successful `set_admin_status(1, 1)` returns a truthy result yet leaves
the cached admin status at 2 — the next read does not reflect the
change, so the optimistic-update claim is false for this operation. -/
theorem set_admin_status_does_not_update_cache :
    (set_admin_status true (fun i => if i = 1 then some ⟨none, some 2⟩ else none) 1 1).1
      = true
    ∧ (set_admin_status true (fun i => if i = 1 then some ⟨none, some 2⟩ else none) 1 1).2 1
      = some ⟨none, some 2⟩
    ∧ (2 : ℤ) ≠ 1 := by
  decide

/-- C4 (code bug): a device whose "current" egress table places bridge
port 3 in VLAN 5 (PortList byte 0x20) and whose static tables are
empty. The source never decodes the current Q-BRIDGE tables — both
current-table calls pass the table OID as an unexpected keyword
argument, raising `TypeError` which the surrounding `except` swallows —
so the computed allowed set for port 3 is empty, while the claimed
current+static merge yields {5}. -/
theorem vlan_current_tables_never_merged :
    3 ∈ decode_bridge_port_bitmap [32]
    ∧ (vlanMembership_code ⟨[(5, [32])], [], [], []⟩).1 3 = ∅
    ∧ (vlanMembership_claim ⟨[(5, [32])], [], [], []⟩).1 3 = {5} := by
  decide

/-- C1: for an interface with a previous and a current RX sample and
`dt = now - ts > 0`, the tick stores the new sample and reports
`rate = delta * 8 / dt` bits per second, where with 32-bit counters and
`cur < prev` the delta is exactly `cur - prev + 2^32` (never negative
for in-range 32-bit counter values), and with 64-bit counters the delta
is `cur - prev` with no wraparound correction. -/
theorem bw_delta_wraparound_and_rate (use_hc : Bool) (now ts : ℚ) (prev cur : ℤ)
    (hts : ts ≠ 0) (hdt : 0 < now - ts) :
    bwTick use_hc now (some ⟨ts, some prev, none⟩) (some cur) none
      = some (⟨now, some cur, none⟩,
          some ((bwWrapDelta use_hc prev cur : ℚ) * 8 / (now - ts)), none)
    ∧ (cur < prev → bwWrapDelta false prev cur = cur - prev + 2 ^ 32)
    ∧ (cur < prev → 0 ≤ cur → prev < 2 ^ 32 → 0 ≤ bwWrapDelta false prev cur)
    ∧ bwWrapDelta true prev cur = cur - prev := by
  refine ⟨?_, ?_, ?_, ?_⟩
  · simp only [bwTick, bwRate]
    simp [hts, hdt]
  · intro hlt
    have : cur - prev < 0 := by omega
    simp [bwWrapDelta, this]
  · intro hlt hc hp
    simp only [bwWrapDelta]
    split
    · omega
    · rename_i h
      simp at h
      omega
  · simp [bwWrapDelta]

/-- C1 witness: 32-bit counters, previous sample at t=1 with RX counter
10, current sample at t=2 with RX counter 5. -/
theorem bw_delta_wraparound_and_rate_witness :
    ((1 : ℚ) ≠ 0 ∧ (0 : ℚ) < 2 - 1)
    ∧ (bwTick false 2 (some ⟨1, some 10, none⟩) (some 5) none
        = some (⟨2, some 5, none⟩,
            some ((bwWrapDelta false 10 5 : ℚ) * 8 / (2 - 1)), none)
      ∧ ((5 : ℤ) < 10 → bwWrapDelta false 10 5 = 5 - 10 + 2 ^ 32)
      ∧ ((5 : ℤ) < 10 → (0 : ℤ) ≤ 5 → (10 : ℤ) < 2 ^ 32 → 0 ≤ bwWrapDelta false 10 5)
      ∧ bwWrapDelta true 10 5 = 5 - 10) :=
  ⟨⟨by norm_num, by norm_num⟩,
   bw_delta_wraparound_and_rate false 2 1 10 5 (by norm_num) (by norm_num)⟩

/-- C6: on a tick where at least one current counter value exists, an
interface with no prior sample gets no RX/TX rate (absent, not zero)
whatever the counter values are, and an interface whose prior sample is
exactly as old as `now` (`dt = 0`) also gets no rate; in both cases the
new `(timestamp, rx, tx)` sample is stored as the single retained
sample. -/
theorem bw_first_sample_and_zero_dt_yield_no_rate (use_hc : Bool) (now : ℚ)
    (rx tx : Option ℤ) (s : BwSample) (hsome : ¬(rx = none ∧ tx = none))
    (hts : s.ts ≠ 0) (hdt : now - s.ts = 0) :
    bwTick use_hc now none rx tx = some (⟨now, rx, tx⟩, none, none)
    ∧ bwTick use_hc now (some s) rx tx = some (⟨now, rx, tx⟩, none, none) := by
  constructor
  · simp [bwTick, hsome]
  · simp [bwTick, hsome, hts, hdt]

/-- C6 witness: current counters (5, 7); no prior sample, and a prior
sample taken at the same instant t=2 as the tick. -/
theorem bw_first_sample_and_zero_dt_yield_no_rate_witness :
    (¬((some (5 : ℤ)) = none ∧ (some (7 : ℤ)) = none)
      ∧ (BwSample.mk 2 (some 1) (some 1)).ts ≠ 0
      ∧ (2 : ℚ) - (BwSample.mk 2 (some 1) (some 1)).ts = 0)
    ∧ (bwTick true 2 none (some 5) (some 7) = some (⟨2, some 5, some 7⟩, none, none)
      ∧ bwTick true 2 (some ⟨2, some 1, some 1⟩) (some 5) (some 7)
          = some (⟨2, some 5, some 7⟩, none, none)) :=
  ⟨⟨by simp, by norm_num, by norm_num⟩,
   bw_first_sample_and_zero_dt_yield_no_rate true 2 (some 5) (some 7) ⟨2, some 1, some 1⟩
     (by simp) (by norm_num) (by norm_num)⟩

lemma storeChunk_nil (dev : GetDevice) (out : String → Option (Option String)) :
    storeChunk dev [] out = out := rfl

lemma storeChunk_cons (dev : GetDevice) (c : String) (cs : List String)
    (out : String → Option (Option String)) :
    storeChunk dev (c :: cs) out
      = storeChunk dev cs (setKey out c (normalizeValue (dev.val c))) := rfl

/-- A successful chunk store leaves a key either untouched or bound to
its own normalized device value. -/
lemma storeChunk_cases (dev : GetDevice) (o : String) :
    ∀ (chunk : List String) (out : String → Option (Option String)),
      storeChunk dev chunk out o = out o
      ∨ storeChunk dev chunk out o = some (normalizeValue (dev.val o))
  | [], out => Or.inl rfl
  | c :: cs, out => by
    rw [storeChunk_cons]
    rcases storeChunk_cases dev o cs (setKey out c (normalizeValue (dev.val c))) with h | h
    · rw [h]
      by_cases hc : o = c
      · subst hc
        exact Or.inr (by simp [setKey])
      · exact Or.inl (by simp [setKey, hc])
    · exact Or.inr h

/-- Keys outside a chunk are untouched by its store. -/
lemma storeChunk_frame (dev : GetDevice) (o : String) :
    ∀ (chunk : List String) (out : String → Option (Option String)), o ∉ chunk →
      storeChunk dev chunk out o = out o
  | [], _, _ => rfl
  | c :: cs, out, h => by
    have hc : o ≠ c := fun e => h (by simp [e])
    have hcs : o ∉ cs := fun m => h (by simp [m])
    rw [storeChunk_cons, storeChunk_frame dev o cs _ hcs]
    simp [setKey, hc]

/-- Every key in a successfully stored chunk ends bound to its
normalized device value. -/
lemma storeChunk_mem (dev : GetDevice) (o : String) :
    ∀ (chunk : List String) (out : String → Option (Option String)), o ∈ chunk →
      storeChunk dev chunk out o = some (normalizeValue (dev.val o))
  | c :: cs, out, h => by
    rw [storeChunk_cons]
    by_cases hcs : o ∈ cs
    · exact storeChunk_mem dev o cs _ hcs
    · have hc : o = c := by
        rcases List.mem_cons.mp h with h1 | h1
        · exact h1
        · exact absurd h1 hcs
      subst hc
      rw [storeChunk_frame dev o cs _ hcs]
      simp [setKey]

lemma fetchChunkF_nil (dev : GetDevice) (fuel : ℕ)
    (out : String → Option (Option String)) : fetchChunkF dev fuel [] out = out := by
  cases fuel <;> rfl

lemma fetchChunkF_zero (dev : GetDevice) (chunk : List String)
    (out : String → Option (Option String)) : fetchChunkF dev 0 chunk out = out := by
  cases chunk <;> rfl

/-- `_fetch_chunk` leaves a key either untouched or bound to its own
normalized device value. -/
lemma fetchChunkF_cases (dev : GetDevice) (o : String) :
    ∀ (fuel : ℕ) (chunk : List String) (out : String → Option (Option String)),
      fetchChunkF dev fuel chunk out o = out o
      ∨ fetchChunkF dev fuel chunk out o = some (normalizeValue (dev.val o)) := by
  intro fuel
  induction fuel with
  | zero => intro chunk out; rw [fetchChunkF_zero]; exact Or.inl rfl
  | succ n ih =>
    intro chunk out
    cases chunk with
    | nil => rw [fetchChunkF_nil]; exact Or.inl rfl
    | cons c cs =>
      simp only [fetchChunkF]
      split
      · split
        · exact Or.inl rfl
        · rcases ih ((c :: cs).take (max 1 ((c :: cs).length / 2))) out with h1 | h1 <;>
            rcases ih ((c :: cs).drop (max 1 ((c :: cs).length / 2)))
              (fetchChunkF dev n ((c :: cs).take (max 1 ((c :: cs).length / 2))) out) with
              h2 | h2
          · exact Or.inl (by rw [h2, h1])
          · exact Or.inr h2
          · exact Or.inr (by rw [h2, h1])
          · exact Or.inr h2
      · exact storeChunk_cases dev o (c :: cs) out

/-- Keys outside a chunk are untouched by `_fetch_chunk`. -/
lemma fetchChunkF_frame (dev : GetDevice) (o : String) :
    ∀ (fuel : ℕ) (chunk : List String) (out : String → Option (Option String)),
      o ∉ chunk → fetchChunkF dev fuel chunk out o = out o := by
  intro fuel
  induction fuel with
  | zero => intro chunk out _; rw [fetchChunkF_zero]
  | succ n ih =>
    intro chunk out hout
    cases chunk with
    | nil => rw [fetchChunkF_nil]
    | cons c cs =>
      have htake : o ∉ (c :: cs).take (max 1 ((c :: cs).length / 2)) :=
        fun m => hout (List.mem_of_mem_take m)
      have hdrop : o ∉ (c :: cs).drop (max 1 ((c :: cs).length / 2)) :=
        fun m => hout (List.mem_of_mem_drop m)
      simp only [fetchChunkF]
      split
      · split
        · rfl
        · rw [ih _ _ hdrop, ih _ _ htake]
      · exact storeChunk_frame dev o _ _ hout

/-- A bad OID's binding is never touched: an errored singleton is
dropped, errored chunks only recurse, and a successful chunk cannot
contain a bad OID. -/
lemma fetchChunkF_bad (dev : GetDevice) (o : String) (hbad : dev.bad o = true) :
    ∀ (fuel : ℕ) (chunk : List String) (out : String → Option (Option String)),
      fetchChunkF dev fuel chunk out o = out o := by
  intro fuel
  induction fuel with
  | zero => intro chunk out; rw [fetchChunkF_zero]
  | succ n ih =>
    intro chunk out
    cases chunk with
    | nil => rw [fetchChunkF_nil]
    | cons c cs =>
      simp only [fetchChunkF]
      split
      · split
        · rfl
        · rw [ih, ih]
      · rename_i herr
        have hnot : o ∉ c :: cs := by
          intro hm
          have : chunkErrs dev (c :: cs) = true := by
            simp only [chunkErrs, List.any_eq_true]
            exact ⟨o, hm, hbad⟩
          exact herr this
        exact storeChunk_frame dev o _ _ hnot

/-- A good OID in a chunk ends bound to its normalized value, provided
the fuel covers the chunk length: a chunk containing only good OIDs
succeeds outright, and bisection isolates a good OID from any bad ones. -/
lemma fetchChunkF_good (dev : GetDevice) (o : String) (hgood : dev.bad o = false) :
    ∀ (fuel : ℕ) (chunk : List String) (out : String → Option (Option String)),
      chunk.length ≤ fuel → o ∈ chunk →
      fetchChunkF dev fuel chunk out o = some (normalizeValue (dev.val o)) := by
  intro fuel
  induction fuel with
  | zero =>
    intro chunk out hlen hmem
    have : chunk = [] := List.eq_nil_of_length_eq_zero (Nat.le_zero.mp hlen)
    subst this
    exact absurd hmem (List.not_mem_nil o)
  | succ n ih =>
    intro chunk out hlen hmem
    cases chunk with
    | nil => exact absurd hmem (List.not_mem_nil o)
    | cons c cs =>
      simp only [fetchChunkF]
      split
      · rename_i herr
        split
        · rename_i hone
          have : cs = [] := by
            simpa using List.length_eq_zero.mp (by simpa using hone)
          subst this
          have : o = c := by simpa using hmem
          subst this
          have : chunkErrs dev [o] = dev.bad o := by simp [chunkErrs]
          rw [this, hgood] at herr
          exact absurd herr (by simp)
        · rename_i hone
          have hlen2 : 2 ≤ (c :: cs).length := by
            have : (c :: cs).length ≠ 1 := by simpa using hone
            have : 1 ≤ (c :: cs).length := by simp
            omega
          have hmid1 : 1 ≤ max 1 ((c :: cs).length / 2) := le_max_left _ _
          have hmid2 : max 1 ((c :: cs).length / 2) ≤ (c :: cs).length - 1 := by omega
          have htlen : ((c :: cs).take (max 1 ((c :: cs).length / 2))).length ≤ n := by
            rw [List.length_take]
            omega
          have hdlen : ((c :: cs).drop (max 1 ((c :: cs).length / 2))).length ≤ n := by
            rw [List.length_drop]
            omega
          by_cases hd : o ∈ (c :: cs).drop (max 1 ((c :: cs).length / 2))
          · exact ih _ _ hdlen hd
          · have ht : o ∈ (c :: cs).take (max 1 ((c :: cs).length / 2)) := by
              have := List.take_append_drop (max 1 ((c :: cs).length / 2)) (c :: cs)
              rw [← this] at hmem
              rcases List.mem_append.mp hmem with h | h
              · exact h
              · exact absurd h hd
            rw [fetchChunkF_frame dev o _ _ _ hd]
            exact ih _ _ htlen ht
      · exact storeChunk_mem dev o _ _ hmem

/-- Every element of a 20-slice is an element of the sliced list. -/
lemma chunksOf20_subset (l : List String) (c : List String) (o : String)
    (hc : c ∈ chunksOf20 l) (ho : o ∈ c) : o ∈ l := by
  obtain ⟨k, _, rfl⟩ := List.mem_map.mp hc
  exact List.mem_of_mem_drop (List.mem_of_mem_take ho)

/-- Every element of a list lands in one of its 20-slices. -/
lemma chunksOf20_cover_aux :
    ∀ (n : ℕ) (l : List String) (o : String), l.length ≤ n → o ∈ l →
      ∃ c ∈ chunksOf20 l, o ∈ c := by
  intro n
  induction n with
  | zero =>
    intro l o hl ho
    have : l = [] := List.eq_nil_of_length_eq_zero (Nat.le_zero.mp hl)
    subst this
    exact absurd ho (List.not_mem_nil o)
  | succ n ih =>
    intro l o hl ho
    by_cases h20 : o ∈ l.take 20
    · refine ⟨l.take 20, ?_, h20⟩
      have hpos : 0 < l.length := List.length_pos.mpr (List.ne_nil_of_mem ho)
      refine List.mem_map.mpr ⟨0, List.mem_range.mpr (by omega), ?_⟩
      simp
    · have hd : o ∈ l.drop 20 := by
        have := List.take_append_drop 20 l
        rw [← this] at ho
        rcases List.mem_append.mp ho with h | h
        · exact absurd h h20
        · exact h
      have hlen : 20 < l.length := by
        have h1 : 0 < (l.drop 20).length := List.length_pos.mpr (List.ne_nil_of_mem hd)
        rw [List.length_drop] at h1
        omega
      obtain ⟨c, hc, hoc⟩ := ih (l.drop 20) o (by rw [List.length_drop]; omega) hd
      obtain ⟨k, hk, rfl⟩ := List.mem_map.mp hc
      refine ⟨(l.drop ((k + 1) * 20)).take 20, List.mem_map.mpr ⟨k + 1, ?_, rfl⟩, ?_⟩
      · refine List.mem_range.mpr ?_
        have hk2 := List.mem_range.mp hk
        rw [List.length_drop] at hk2
        omega
      · have : (l.drop 20).drop (k * 20) = l.drop ((k + 1) * 20) := by
          rw [List.drop_drop]
          congr 1
          ring
        rw [← this]
        exact hoc

lemma chunksOf20_cover (l : List String) (o : String) (ho : o ∈ l) :
    ∃ c ∈ chunksOf20 l, o ∈ c :=
  chunksOf20_cover_aux l.length l o le_rfl ho

/-- Folding `_fetch_chunk` over chunks never touches a bad OID's
binding. -/
lemma getMany_foldl_bad (dev : GetDevice) (o : String) (hbad : dev.bad o = true) :
    ∀ (chunks : List (List String)) (out : String → Option (Option String)),
      (chunks.foldl (fun acc c => fetchChunk dev c acc) out) o = out o
  | [], out => rfl
  | c :: cs, out => by
    rw [List.foldl_cons, getMany_foldl_bad dev o hbad cs _]
    exact fetchChunkF_bad dev o hbad _ _ _

/-- Folding `_fetch_chunk` over chunks binds a good OID to its
normalized value as soon as some chunk contains it (or it was already
so bound). -/
lemma getMany_foldl_good (dev : GetDevice) (o : String) (hgood : dev.bad o = false) :
    ∀ (chunks : List (List String)) (out : String → Option (Option String)),
      ((∃ c ∈ chunks, o ∈ c) ∨ out o = some (normalizeValue (dev.val o))) →
      (chunks.foldl (fun acc c => fetchChunk dev c acc) out) o
        = some (normalizeValue (dev.val o))
  | [], out, h => by
    rcases h with ⟨c, hc, _⟩ | h
    · exact absurd hc (List.not_mem_nil c)
    · exact h
  | c :: cs, out, h => by
    rw [List.foldl_cons]
    by_cases hoc : o ∈ c
    · exact getMany_foldl_good dev o hgood cs _
        (Or.inr (fetchChunkF_good dev o hgood _ _ _ le_rfl hoc))
    · refine getMany_foldl_good dev o hgood cs _ ?_
      rcases h with ⟨c2, hc2, hoc2⟩ | h
      · rcases List.mem_cons.mp hc2 with h2 | h2
        · subst h2
          exact absurd hoc2 hoc
        · exact Or.inl ⟨c2, h2, hoc2⟩
      · refine Or.inr ?_
        show fetchChunkF dev c.length c out o = some (normalizeValue (dev.val o))
        rw [fetchChunkF_frame dev o _ _ _ hoc, h]

/-- Folding `_fetch_chunk` over chunks leaves a key either untouched or
bound to its own normalized value. -/
lemma getMany_foldl_cases (dev : GetDevice) (o : String) :
    ∀ (chunks : List (List String)) (out : String → Option (Option String)),
      (chunks.foldl (fun acc c => fetchChunk dev c acc) out) o = out o
      ∨ (chunks.foldl (fun acc c => fetchChunk dev c acc) out) o
          = some (normalizeValue (dev.val o))
  | [], out => Or.inl rfl
  | c :: cs, out => by
    rw [List.foldl_cons]
    rcases getMany_foldl_cases dev o cs (fetchChunk dev c out) with h | h
    · rcases fetchChunkF_cases dev o c.length c out with h2 | h2
      · exact Or.inl (by rw [h]; exact h2)
      · exact Or.inr (by rw [h]; exact h2)
    · exact Or.inr h

/-- Folding `_fetch_chunk` over chunks that avoid a key leaves it
untouched. -/
lemma getMany_foldl_frame (dev : GetDevice) (o : String) :
    ∀ (chunks : List (List String)) (out : String → Option (Option String)),
      (∀ c ∈ chunks, o ∉ c) →
      (chunks.foldl (fun acc c => fetchChunk dev c acc) out) o = out o
  | [], out, _ => rfl
  | c :: cs, out, h => by
    rw [List.foldl_cons,
      getMany_foldl_frame dev o cs _ (fun c2 hc2 => h c2 (List.mem_cons_of_mem c hc2))]
    exact fetchChunkF_frame dev o _ _ _ (h c (List.mem_cons_self c cs))

/-- C2: for every OID list handed to the batched GET (processed in
fixed chunks of 20 and recursively bisected on protocol errors, down to
silently dropped singletons), against a device that errors a chunk
exactly when it contains a bad OID: every good requested OID still ends
bound to its (normalized) value, and every bad requested OID stays
bound to `None` — so one bad OID in a batch never loses the other
values. -/
theorem get_many_bisection_isolates_bad_oids (dev : GetDevice) (oids : List String)
    (o : String) (hmem : o ∈ oids) :
    (dev.bad o = false → do_get_many dev oids o = some (normalizeValue (dev.val o)))
    ∧ (dev.bad o = true → do_get_many dev oids o = some none) := by
  constructor
  · intro hgood
    unfold do_get_many
    exact getMany_foldl_good dev o hgood _ _ (Or.inl (chunksOf20_cover oids o hmem))
  · intro hbad
    unfold do_get_many
    rw [getMany_foldl_bad dev o hbad]
    simp [initOut, hmem]

/-- C2 witness: a three-OID batch whose middle OID errors; the good OID
"1.1" is still populated and the bad OID "1.2" stays `None`. -/
theorem get_many_bisection_isolates_bad_oids_witness :
    ("1.1" ∈ ["1.1", "1.2", "1.3"])
    ∧ (((⟨fun o => o == "1.2", fun o => "v" ++ o⟩ : GetDevice).bad "1.1" = false →
          do_get_many ⟨fun o => o == "1.2", fun o => "v" ++ o⟩ ["1.1", "1.2", "1.3"] "1.1"
            = some (normalizeValue
                ((⟨fun o => o == "1.2", fun o => "v" ++ o⟩ : GetDevice).val "1.1")))
        ∧ ((⟨fun o => o == "1.2", fun o => "v" ++ o⟩ : GetDevice).bad "1.1" = true →
          do_get_many ⟨fun o => o == "1.2", fun o => "v" ++ o⟩ ["1.1", "1.2", "1.3"] "1.1"
            = some none)) :=
  ⟨by decide,
   get_many_bisection_isolates_bad_oids ⟨fun o => o == "1.2", fun o => "v" ++ o⟩
     ["1.1", "1.2", "1.3"] "1.1" (by decide)⟩

/-- C10: the batched GET's result has a binding for exactly the
requested OIDs; a requested OID that is bad (errored at every bisection
level) or whose value normalizes to absent (empty or sentinel) is bound
to `None`, so any requested OID can be looked up without a missing-key
error. -/
theorem get_many_returns_all_requested_keys (dev : GetDevice) (oids : List String)
    (o : String) :
    (o ∈ oids → (do_get_many dev oids o).isSome = true)
    ∧ (o ∉ oids → do_get_many dev oids o = none)
    ∧ (o ∈ oids → dev.bad o = true → do_get_many dev oids o = some none)
    ∧ (o ∈ oids → dev.bad o = false → normalizeValue (dev.val o) = none →
        do_get_many dev oids o = some none) := by
  refine ⟨?_, ?_, ?_, ?_⟩
  · intro hmem
    unfold do_get_many
    rcases getMany_foldl_cases dev o (chunksOf20 oids) (initOut oids) with h | h
    · rw [h]
      simp [initOut, hmem]
    · rw [h]
      rfl
  · intro hmem
    unfold do_get_many
    rw [getMany_foldl_frame dev o _ _
      (fun c hc hoc => hmem (chunksOf20_subset oids c o hc hoc))]
    simp [initOut, hmem]
  · intro hmem hbad
    unfold do_get_many
    rw [getMany_foldl_bad dev o hbad]
    simp [initOut, hmem]
  · intro hmem hgood hnorm
    unfold do_get_many
    rcases getMany_foldl_cases dev o (chunksOf20 oids) (initOut oids) with h | h
    · rw [h]
      simp [initOut, hmem]
    · rw [h, hnorm]

/-- C10 witness: a single requested OID whose value is the empty
string; the key is present, bound to `None`. -/
theorem get_many_returns_all_requested_keys_witness :
    ("a" ∈ ["a"])
    ∧ (do_get_many (⟨fun _ => false, fun _ => ""⟩ : GetDevice) ["a"] "a").isSome = true
    ∧ do_get_many (⟨fun _ => false, fun _ => ""⟩ : GetDevice) ["a"] "a" = some none :=
  ⟨by decide,
   (get_many_returns_all_requested_keys ⟨fun _ => false, fun _ => ""⟩ ["a"] "a").1
     (by decide),
   (get_many_returns_all_requested_keys ⟨fun _ => false, fun _ => ""⟩ ["a"] "a").2.2.2
     (by decide) (by decide) (by decide)⟩

/-- C5 counterexample: with no error indication, `_do_get_one` returns
the var-bind's value text verbatim — here the "no such object" sentinel
text, which `_do_get_many`'s own test classifies as a sentinel — so the
single GET does return vendor sentinel text to its caller. -/
theorem get_one_returns_sentinel_text :
    do_get_one false [("1.3.6.1.2.1.1.1.0", "No Such Object currently exists at this OID")]
      = some "No Such Object currently exists at this OID"
    ∧ isSentinelValue "No Such Object currently exists at this OID" = true := by
  decide

/-- C5 (as amended): the batched GET normalizes every stored response —
a value it binds is never the empty string and never carries a
"no such …"/"end of MIB" sentinel — while the single GET (`get_one`)
performs no such normalization and can return sentinel text. -/
theorem get_many_never_returns_sentinel (dev : GetDevice) (oids : List String)
    (o v : String) (h : do_get_many dev oids o = some (some v)) :
    v ≠ "" ∧ isSentinelValue v = false := by
  unfold do_get_many at h
  rcases getMany_foldl_cases dev o (chunksOf20 oids) (initOut oids) with h2 | h2
  · rw [h2] at h
    unfold initOut at h
    by_cases hmem : o ∈ oids
    · simp [hmem] at h
    · simp [hmem] at h
  · rw [h2] at h
    have hn : normalizeValue (dev.val o) = some v := by
      injection h
    unfold normalizeValue at hn
    split_ifs at hn with h3 h4
    have hv : dev.val o = v := by injection hn
    rw [← hv]
    exact ⟨h3, by simpa using h4⟩

/-- C5 amended-claim witness: a batched GET that stores the plain value
"x" for OID "a". -/
theorem get_many_never_returns_sentinel_witness :
    (do_get_many (⟨fun _ => false, fun _ => "x"⟩ : GetDevice) ["a"] "a" = some (some "x"))
    ∧ ("x" ≠ "" ∧ isSentinelValue "x" = false) :=
  ⟨by decide,
   get_many_never_returns_sentinel ⟨fun _ => false, fun _ => "x"⟩ ["a"] "a" "x" (by decide)⟩

/-- Processing a response never shrinks the seen set. -/
lemma processVbs_len_mono {α : Type} (base : String) :
    ∀ (vbs : List (String × α)) (seen : List String) (acc : List (String × α)),
      seen.length ≤ (processVbs base vbs seen acc).1.length
  | [], _, _ => le_rfl
  | (o, v) :: rest, seen, acc => by
    simp only [processVbs]
    split
    · exact le_rfl
    · split
      · exact le_rfl
      · exact le_trans (by simp) (processVbs_len_mono base rest (o :: seen) (acc ++ [(o, v)]))

/-- A nonempty response that does not end the walk strictly grows the
seen set. -/
lemma processVbs_grows {α : Type} (base : String) :
    ∀ (vbs : List (String × α)) (seen : List String) (acc : List (String × α)),
      vbs ≠ [] → (processVbs base vbs seen acc).2.2 = false →
      seen.length < (processVbs base vbs seen acc).1.length
  | [], _, _, hne, _ => absurd rfl hne
  | (o, v) :: rest, seen, acc, _, hstop => by
    by_cases h1 : (!(o == base || (base ++ ".").data.isPrefixOf o.data)) = true
    · simp only [processVbs] at hstop
      rw [if_pos h1] at hstop
      exact absurd hstop (by simp)
    · by_cases h2 : o ∈ seen
      · simp only [processVbs] at hstop
        rw [if_neg h1, if_pos h2] at hstop
        exact absurd hstop (by simp)
      · simp only [processVbs] at hstop ⊢
        rw [if_neg h1, if_neg h2] at hstop ⊢
        exact lt_of_lt_of_le (by simp)
          (processVbs_len_mono base rest (o :: seen) (acc ++ [(o, v)]))

/-- Processing a response keeps the seen set duplicate-free. -/
lemma processVbs_nodup {α : Type} (base : String) :
    ∀ (vbs : List (String × α)) (seen : List String) (acc : List (String × α)),
      seen.Nodup → (processVbs base vbs seen acc).1.Nodup
  | [], _, _, h => h
  | (o, v) :: rest, seen, acc, h => by
    simp only [processVbs]
    split
    · exact h
    · split
      · exact h
      · rename_i hnew
        exact processVbs_nodup base rest (o :: seen) (acc ++ [(o, v)])
          (List.nodup_cons.mpr ⟨hnew, h⟩)

/-- Processing a response keeps the seen set inside the universe the
response OIDs come from. -/
lemma processVbs_sub {α : Type} (base : String) (univ : List String) :
    ∀ (vbs : List (String × α)) (seen : List String) (acc : List (String × α)),
      (∀ p ∈ vbs, p.1 ∈ univ) → (∀ o ∈ seen, o ∈ univ) →
      ∀ o ∈ (processVbs base vbs seen acc).1, o ∈ univ
  | [], _, _, _, hseen => hseen
  | (o, v) :: rest, seen, acc, hvbs, hseen => by
    simp only [processVbs]
    split
    · exact hseen
    · split
      · exact hseen
      · refine processVbs_sub base univ rest (o :: seen) (acc ++ [(o, v)])
          (fun p hp => hvbs p (List.mem_cons_of_mem _ hp)) ?_
        intro x hx
        rcases List.mem_cons.mp hx with h | h
        · rw [h]
          exact hvbs (o, v) (List.mem_cons_self _ _)
        · exact hseen x h

/-- A duplicate-free list contained in another list is no longer than
it. -/
lemma nodup_subset_length (l u : List String) (hn : l.Nodup)
    (hs : ∀ o ∈ l, o ∈ u) : l.length ≤ u.length := by
  calc l.length = l.toFinset.card := (List.toFinset_card_of_nodup hn).symm
    _ ≤ u.toFinset.card := by
        refine Finset.card_le_card ?_
        intro x hx
        exact List.mem_toFinset.mpr (hs x (List.mem_toFinset.mp hx))
    _ ≤ u.length := List.toFinset_card_le u

/-- With fuel exceeding the number of universe OIDs not yet seen, the
walk loop finishes: every continuing step must record at least one new
universe OID. -/
lemma walkAux_term {α : Type} (resp : Nat → List (String × α)) (base : String)
    (univ : List String) (hresp : ∀ n, ∀ p ∈ resp n, p.1 ∈ univ) :
    ∀ (fuel n : ℕ) (seen : List String) (acc : List (String × α)),
      seen.Nodup → (∀ o ∈ seen, o ∈ univ) → univ.length - seen.length < fuel →
      (walkAux resp base fuel n seen acc).isSome = true := by
  intro fuel
  induction fuel with
  | zero => intro n seen acc _ _ hf; omega
  | succ m ih =>
    intro n seen acc hnd hsub hf
    simp only [walkAux]
    split
    · rfl
    · rename_i hne
      split
      · rfl
      · rename_i hstop
        have hvne : resp n ≠ [] := by
          intro e
          rw [e] at hne
          exact hne rfl
        have hgrow : seen.length < (processVbs base (resp n) seen acc).1.length :=
          processVbs_grows base (resp n) seen acc hvne (by simpa using hstop)
        have hnd2 : (processVbs base (resp n) seen acc).1.Nodup :=
          processVbs_nodup base (resp n) seen acc hnd
        have hsub2 : ∀ o ∈ (processVbs base (resp n) seen acc).1, o ∈ univ :=
          processVbs_sub base univ (resp n) seen acc (hresp n) hsub
        have hle : (processVbs base (resp n) seen acc).1.length ≤ univ.length :=
          nodup_subset_length _ _ hnd2 hsub2
        exact ih (n + 1) _ _ hnd2 hsub2 (by omega)

/-- A finished walk stays finished, with the same result, on more fuel. -/
lemma walkAux_mono {α : Type} (resp : Nat → List (String × α)) (base : String) :
    ∀ (fuel n : ℕ) (seen : List String) (acc out : List (String × α)),
      walkAux resp base fuel n seen acc = some out →
      walkAux resp base (fuel + 1) n seen acc = some out := by
  intro fuel
  induction fuel with
  | zero => intro n seen acc out h; exact absurd h (by simp [walkAux])
  | succ m ih =>
    intro n seen acc out h
    simp only [walkAux] at h ⊢
    by_cases he : (resp n).isEmpty = true
    · rw [if_pos he] at h ⊢
      exact h
    · rw [if_neg he] at h ⊢
      by_cases hs : (processVbs base (resp n) seen acc).2.2 = true
      · rw [if_pos hs] at h ⊢
        exact h
      · rw [if_neg hs] at h ⊢
        exact ih _ _ _ _ h

lemma walkAux_mono_le {α : Type} (resp : Nat → List (String × α)) (base : String)
    (fuel fuel2 n : ℕ) (seen : List String) (acc out : List (String × α))
    (hle : fuel ≤ fuel2) (h : walkAux resp base fuel n seen acc = some out) :
    walkAux resp base fuel2 n seen acc = some out := by
  induction fuel2 with
  | zero =>
    have : fuel = 0 := Nat.le_zero.mp hle
    subst this
    exact h
  | succ m ih =>
    rcases Nat.lt_or_ge fuel (m + 1) with hlt | hge
    · exact walkAux_mono resp base m n seen acc out (ih (by omega))
    · have : fuel = m + 1 := by omega
      subst this
      exact h

/-- C3: for every base OID and every (possibly adversarial) GET-NEXT
response stream drawn from the device's finite OID universe, the walk
terminates — every fuel beyond the universe size yields the same
finished result, the loop having stopped on a subtree exit, a repeated
OID, or an error/empty response; in particular a stream that keeps
returning an already-seen OID cannot make the walk loop indefinitely. -/
theorem walk_terminates_on_finite_universe {α : Type}
    (resp : Nat → List (String × α)) (base : String) (univ : List String)
    (hresp : ∀ n, ∀ p ∈ resp n, p.1 ∈ univ) :
    ∃ out, ∀ fuel, univ.length < fuel → do_next_walk resp base fuel = some out := by
  have h0 : (walkAux resp base (univ.length + 1) 0 [] []).isSome = true :=
    walkAux_term resp base univ hresp (univ.length + 1) 0 [] [] List.nodup_nil
      (by intro o ho; exact absurd ho (List.not_mem_nil o)) (by omega)
  obtain ⟨out, hout⟩ := Option.isSome_iff_exists.mp h0
  refine ⟨out, fun fuel hf => ?_⟩
  exact walkAux_mono_le resp base (univ.length + 1) fuel 0 [] [] out (by omega) hout

/-- C3 witness: a stream that answers every GET-NEXT with the same
in-subtree OID "1.2.1"; the walk accepts it once and stops when it is
returned again. -/
theorem walk_terminates_on_finite_universe_witness :
    (∀ n : ℕ, ∀ p ∈ (fun _ : ℕ => [("1.2.1", (0 : ℕ))]) n, p.1 ∈ ["1.2.1"])
    ∧ (∃ out, ∀ fuel, (["1.2.1"] : List String).length < fuel →
        do_next_walk (fun _ : ℕ => [("1.2.1", (0 : ℕ))]) "1.2" fuel = some out)
    ∧ do_next_walk (fun _ : ℕ => [("1.2.1", (0 : ℕ))]) "1.2" 2 = some [("1.2.1", 0)] :=
  ⟨fun n p hp => by
      rcases List.mem_singleton.mp hp with rfl
      simp,
   walk_terminates_on_finite_universe (fun _ : ℕ => [("1.2.1", (0 : ℕ))]) "1.2" ["1.2.1"]
     (fun n p hp => by
        rcases List.mem_singleton.mp hp with rfl
        simp),
   by decide⟩

/-- The masked-bit test of the decoder reads off exactly one of the
eight encoded flags. -/
lemma octet_and_bits (b0 b1 b2 b3 b4 b5 b6 b7 : Bool) (bit : ℕ) (hbit : bit < 8) :
    ((cond b0 128 0 + cond b1 64 0 + cond b2 32 0 + cond b3 16 0 + cond b4 8 0 +
        cond b5 4 0 + cond b6 2 0 + cond b7 1 0) &&& (128 >>> bit) ≠ 0)
      ↔ (if bit = 0 then b0 else if bit = 1 then b1 else if bit = 2 then b2
         else if bit = 3 then b3 else if bit = 4 then b4 else if bit = 5 then b5
         else if bit = 6 then b6 else b7) = true := by
  interval_cases bit <;> revert b0 b1 b2 b3 b4 b5 b6 b7 <;> decide

/-- The masked-bit test on an encoded octet is membership of the
corresponding flag. -/
lemma octetVal_and (f : ℕ → Bool) (bit : ℕ) (hbit : bit < 8) :
    (octetVal f &&& (128 >>> bit) ≠ 0) ↔ f bit = true := by
  have h := octet_and_bits (f 0) (f 1) (f 2) (f 3) (f 4) (f 5) (f 6) (f 7) bit hbit
  unfold octetVal
  rw [h]
  interval_cases bit <;> simp

/-- Membership characterization of the source decoder. -/
lemma mem_decode_bitmap (data : List ℕ) (p : ℕ) :
    p ∈ decode_bridge_port_bitmap data ↔
      ∃ i, i < data.length ∧ ∃ bit, bit < 8 ∧
        data.getD i 0 &&& (128 >>> bit) ≠ 0 ∧ p = i * 8 + bit + 1 := by
  unfold decode_bridge_port_bitmap
  rw [List.mem_toFinset]
  simp only [List.mem_flatMap, List.mem_range, List.mem_filterMap]
  constructor
  · rintro ⟨i, hi, bit, hbit, hcond⟩
    by_cases hc : data.getD i 0 &&& (128 >>> bit) ≠ 0
    · rw [if_pos hc] at hcond
      exact ⟨i, hi, bit, hbit, hc, (Option.some_injective _ hcond).symm⟩
    · rw [if_neg hc] at hcond
      exact absurd hcond (by simp)
  · rintro ⟨i, hi, bit, hbit, hc, rfl⟩
    exact ⟨i, hi, bit, hbit, by rw [if_pos hc]⟩

lemma encodePortList_length (S : Finset ℕ) :
    (encodePortList S).length = (S.sup id + 7) / 8 := by
  simp [encodePortList]

lemma encodePortList_getD (S : Finset ℕ) (i : ℕ) (hi : i < (S.sup id + 7) / 8) :
    (encodePortList S).getD i 0 = octetVal fun bit => decide (i * 8 + bit + 1 ∈ S) := by
  unfold encodePortList
  simp [List.getD_eq_getElem?_getD, List.getElem?_map, List.getElem?_range, hi]

/-- C9: PortList bitmap decoding is the exact inverse of MSB-first
bit-packed encoding — for every finite set of positive bridge port
numbers, encoding the set (bit n, 1-based, most-significant-bit first
within each octet, represents bridge port n) and then decoding with the
source decoder reproduces exactly the original set. -/
theorem portlist_bitmap_roundtrip (S : Finset ℕ) (hpos : ∀ p ∈ S, 0 < p) :
    decode_bridge_port_bitmap (encodePortList S) = S := by
  ext p
  rw [mem_decode_bitmap]
  constructor
  · rintro ⟨i, hi, bit, hbit, hand, rfl⟩
    rw [encodePortList_length] at hi
    rw [encodePortList_getD S i hi] at hand
    have := (octetVal_and (fun b => decide (i * 8 + b + 1 ∈ S)) bit hbit).mp hand
    simpa using this
  · intro hp
    have hp1 : 0 < p := hpos p hp
    have hple : id p ≤ S.sup id := Finset.le_sup hp
    simp only [id] at hple
    have hilt : (p - 1) / 8 < (S.sup id + 7) / 8 := by omega
    refine ⟨(p - 1) / 8, ?_, (p - 1) % 8, Nat.mod_lt _ (by norm_num), ?_, ?_⟩
    · rw [encodePortList_length]
      exact hilt
    · rw [encodePortList_getD S _ hilt]
      apply (octetVal_and _ _ (Nat.mod_lt _ (by norm_num))).mpr
      have he : (p - 1) / 8 * 8 + (p - 1) % 8 + 1 = p := by omega
      rw [he]
      exact decide_eq_true hp
    · omega

/-- C9 witness: the set {1, 8, 9} — port 1, the octet boundary port 8,
and port 9 in the next octet — survives the round trip. -/
theorem portlist_bitmap_roundtrip_witness :
    (∀ p ∈ ({1, 8, 9} : Finset ℕ), 0 < p)
    ∧ decode_bridge_port_bitmap (encodePortList {1, 8, 9}) = {1, 8, 9} :=
  ⟨by decide, portlist_bitmap_roundtrip {1, 8, 9} (by decide)⟩
